import Mathlib

/-!
Verification of the go-burndown repository.

Shallow embedding conventions:

* Go float64 values are modelled as exact rationals.  The IEEE special
  values (NaN, plus and minus infinity) and rounding of decimal literals to
  binary doubles lie outside the rational model; the clamping, maximum and
  comparison operations used by the code are exact on the values the claims
  exercise.
* Go time.Time values are modelled as absolute instants measured in
  milliseconds.  The method Before is strict comparison of instants, and
  AddDate(0, 0, 1) applied to a UTC instant (the only way the code builds
  the query-date offsets) adds exactly one day, 86400000 milliseconds.
* Fallible Go functions returning (value, error) pairs are modelled either
  with Except or with an explicit pair whose second component is the
  optional error, mirroring the concrete values Go returns alongside an
  error.
-/

set_option autoImplicit false

namespace GoBurndown

/-! ## Configuration (config/config.go) -/

/-- JiraConfig from config/config.go. -/
structure JiraConfig where
  jiraURL : String
  username : String
  apiToken : String
  sizeField : String
  percentCompleteField : String
  doneStatuses : List String
deriving DecidableEq

/-- Config from config/config.go. -/
structure Config where
  outputFile : String
  startDate : String
  jql : String
  movingAvgWeeks : Nat
  jira : JiraConfig
deriving DecidableEq

/-- IsDoneStatus from config/config.go: membership of the status string in
the configured done set, via slices.Contains. -/
def Config.IsDoneStatus (c : Config) (status : String) : Bool :=
  c.jira.doneStatuses.contains status

/-! ## Issue data model (jira package) -/

/-- A JSON value as produced by encoding/json into a Go interface value:
numbers always decode to float64 (here a rational), strings to string,
booleans to bool, null to nil; arrays and objects are collapsed into one
composite constructor because the accessors under verification only ever
test for the float64 case. -/
inductive JSONValue where
  | num (val : ℚ)
  | str (val : String)
  | boolean (val : Bool)
  | null
  | composite
deriving DecidableEq

/-- Fields from jira/field.go, with the nested single-field structs for
status, issuetype and assignee flattened to their one string member.  The
CustomFields map is modelled as an association list keyed by field id. -/
structure Fields where
  summary : String
  statusName : String
  issuetypeName : String
  assigneeDisplayName : String
  created : String
  updated : String
  customFields : List (String × JSONValue)
deriving DecidableEq

/-- Go map lookup val, ok := m[k] on the custom-fields association list. -/
def lookupCustomField (m : List (String × JSONValue)) (key : String) : Option JSONValue :=
  match m.find? (fun p => p.1 == key) with
  | some p => some p.2
  | none => none

/-- One entry of History.Items from the jira package. -/
structure HistoryItem where
  field : String
  fieldtype : String
  fromString : String
  toString : String
deriving DecidableEq

/-- History from the jira package: a changelog entry.  createdTime is the
private member holding the parsed instant of the Created string; it is
zero until parseHistoryTimes fills it in. -/
structure History where
  created : String
  items : List HistoryItem
  createdTime : Int
deriving DecidableEq

/-- The changelog struct embedded in Issue. -/
structure Changelog where
  histories : List History
deriving DecidableEq

/-- Issue from the jira package. -/
structure Issue where
  key : String
  fields : Fields
  changelog : Changelog
deriving DecidableEq

/-- GetSize from the jira package: the configured size custom field if
present and of dynamic type float64, otherwise zero. -/
def Issue.GetSize (issue : Issue) (config : Config) : ℚ :=
  match lookupCustomField issue.fields.customFields config.jira.sizeField with
  | some (JSONValue.num f) => f
  | _ => 0

/-- GetPercentageComplete from the jira package: the configured
percent-complete custom field if present and of dynamic type float64,
otherwise zero. -/
def Issue.GetPercentageComplete (issue : Issue) (config : Config) : ℚ :=
  match lookupCustomField issue.fields.customFields config.jira.percentCompleteField with
  | some (JSONValue.num f) => f
  | _ => 0

/-! ## Float parsing (strconv.ParseFloat)

The code parses the ToString of a percent-complete change item with
strconv.ParseFloat.  The model covers the finite decimal literals: an
optional sign, decimal digits with an optional fractional part, and an
optional decimal exponent.  The hexadecimal-float and underscore-digit
forms accepted by Go, and the words denoting the IEEE special values,
lie outside the rational model. -/

/-- Value of a list of decimal digit characters. -/
def digitsToNat (ds : List Char) : Nat :=
  ds.foldl (fun acc c => 10 * acc + (c.toNat - 48)) 0

/-- Positive power of ten as a rational. -/
def pow10 (n : Nat) : ℚ :=
  (10 : ℚ) ^ n

/-- strconv.ParseFloat restricted to finite decimal literals, returning an
exact rational.  Returns none exactly when Go would report a syntax
error on this fragment: no digits in the mantissa, a malformed exponent,
or trailing characters. -/
def parseFloat (s : String) : Option ℚ :=
  let cs := s.data
  let signAndRest : ℚ × List Char :=
    match cs with
    | '+' :: rest => (1, rest)
    | '-' :: rest => (-1, rest)
    | rest => (1, rest)
  let sign := signAndRest.1
  let cs1 := signAndRest.2
  let ip := cs1.takeWhile Char.isDigit
  let cs2 := cs1.dropWhile Char.isDigit
  let fracAndRest : List Char × List Char :=
    match cs2 with
    | '.' :: rest => (rest.takeWhile Char.isDigit, rest.dropWhile Char.isDigit)
    | rest => ([], rest)
  let fp := fracAndRest.1
  let cs3 := fracAndRest.2
  if ip.isEmpty && fp.isEmpty then none
  else
    let mant : ℚ := sign * ((digitsToNat ip : ℚ) + (digitsToNat fp : ℚ) / pow10 fp.length)
    match cs3 with
    | [] => some mant
    | e :: rest =>
      if e == 'e' || e == 'E' then
        let expSignAndRest : Bool × List Char :=
          match rest with
          | '+' :: r => (false, r)
          | '-' :: r => (true, r)
          | r => (false, r)
        let eneg := expSignAndRest.1
        let rest1 := expSignAndRest.2
        let ed := rest1.takeWhile Char.isDigit
        let rest2 := rest1.dropWhile Char.isDigit
        if ed.isEmpty || !rest2.isEmpty then none
        else if eneg then some (mant / pow10 (digitsToNat ed))
        else some (mant * pow10 (digitsToNat ed))
      else none

/-! ## PercentCompleteOnDate (jira package) -/

/-- The fatal error of the percent-complete scan: strconv.ParseFloat
failed on the recorded field value.  The offending raw string is carried
for diagnosis, mirroring the wrapped strconv error. -/
structure ValueParseError where
  raw : String
deriving DecidableEq

/-- One day of the query-date bound: date.AddDate(0, 0, 1) on the UTC
query instants used by the report equals adding 86400000 milliseconds. -/
def oneDayMs : Int := 86400000

/-- The inner loop of PercentCompleteOnDate over the Items of one history
entry: a percent-complete field change parses its ToString and takes the
running maximum (math.Max), failing fatally on a parse error; a status
change to a configured done status forces the running value to one.  The
switch tries the percent-complete field case before the status case, as
in the Go switch statement. -/
def scanItems (config : Config) (percentComplete : ℚ) :
    List HistoryItem → Except ValueParseError ℚ
  | [] => Except.ok percentComplete
  | item :: rest =>
    if item.field == config.jira.percentCompleteField then
      match parseFloat item.toString with
      | none => Except.error ⟨item.toString⟩
      | some val => scanItems config (max percentComplete val) rest
    else if item.field == "status" then
      if config.IsDoneStatus item.toString then
        scanItems config 1 rest
      else
        scanItems config percentComplete rest
    else
      scanItems config percentComplete rest

/-- The outer loop of PercentCompleteOnDate over the changelog histories:
only histories whose parsed creation instant lies strictly before the
beginning of the day after the query date contribute. -/
def scanHistories (config : Config) (beginningOfNextDay : Int) (percentComplete : ℚ) :
    List History → Except ValueParseError ℚ
  | [] => Except.ok percentComplete
  | history :: rest =>
    if history.createdTime < beginningOfNextDay then
      match scanItems config percentComplete history.items with
      | Except.error e => Except.error e
      | Except.ok pc => scanHistories config beginningOfNextDay pc rest
    else
      scanHistories config beginningOfNextDay percentComplete rest

/-- The final clamp of PercentCompleteOnDate: first raise negative values
to zero, then lower values above one to one, exactly as the two
consecutive if statements do. -/
def clampPercent (pc : ℚ) : ℚ :=
  let pc1 := if pc < 0 then 0 else pc
  if pc1 > 1 then 1 else pc1

/-- PercentCompleteOnDate from the jira package.  The result is the pair
Go returns: the percent complete and the optional fatal error; on error
the percent component is the literal 0.0 of the Go return statement. -/
def Issue.PercentCompleteOnDate (issue : Issue) (config : Config) (date : Int) :
    ℚ × Option ValueParseError :=
  match scanHistories config (date + oneDayMs) 0 issue.changelog.histories with
  | Except.error e => (0, some e)
  | Except.ok pc => (clampPercent pc, none)

/-- The issue with its changelog restricted to the query window of
PercentCompleteOnDate: the histories whose parsed instant lies strictly
before the beginning of the day after the query date. -/
def filterWindow (issue : Issue) (date : Int) : Issue :=
  Issue.mk issue.key issue.fields
    (Changelog.mk (issue.changelog.histories.filter fun h => h.createdTime < date + oneDayMs))

/-! ## Concrete fixtures

Concrete configurations and issues used to instantiate the theorems
below on closed inputs. -/

/-- A concrete configuration with distinct custom fields for size and
percent complete and a single done status. -/
def witConfig : Config :=
  ⟨"burndown.xlsx", "2024-01-01", "project = X", 3,
    ⟨"https://example.atlassian.net", "user", "token",
      "customfield_10001", "customfield_10002", ["Done"]⟩⟩

/-- Fields fixture with a numeric size custom field. -/
def witFields : Fields :=
  ⟨"a story", "In Progress", "Story", "Ada",
    "2024-01-01T08:00:00.000+0000", "2024-01-03T09:00:00.000+0000",
    [("customfield_10001", JSONValue.num 5)]⟩

/-- A percent-complete change to 0.2 during the first day. -/
def witHistoryPercent : History :=
  ⟨"2024-01-01T10:00:00.000+0000",
    [⟨"customfield_10002", "custom", "", "0.2"⟩], 36000000⟩

/-- A percent-complete change to the out-of-range value 1.5 during the
second day. -/
def witHistoryOver : History :=
  ⟨"2024-01-02T09:00:00.000+0000",
    [⟨"customfield_10002", "custom", "0.2", "1.5"⟩], oneDayMs + 32400000⟩

/-- A status change to Done during the third day. -/
def witHistoryDone : History :=
  ⟨"2024-01-03T09:00:00.000+0000",
    [⟨"status", "jira", "In Progress", "Done"⟩], 2 * oneDayMs + 32400000⟩

/-- A percent-complete change back to 0.5 during the fourth day, after
the done event. -/
def witHistoryLater : History :=
  ⟨"2024-01-04T09:00:00.000+0000",
    [⟨"customfield_10002", "custom", "1.5", "0.5"⟩], 3 * oneDayMs + 32400000⟩

/-- A percent-complete change whose recorded value is not a number,
during the tenth day. -/
def witHistoryBad : History :=
  ⟨"2024-01-10T09:00:00.000+0000",
    [⟨"customfield_10002", "custom", "0.5", "oops"⟩], 9 * oneDayMs + 32400000⟩

/-- Issue fixture with a percent change and a later done event. -/
def witIssueDone : Issue :=
  ⟨"PRJ-1", witFields, ⟨[witHistoryPercent, witHistoryDone, witHistoryLater]⟩⟩

/-- Issue fixture whose log records the out-of-range value 1.5. -/
def witIssueOver : Issue :=
  ⟨"PRJ-2", witFields, ⟨[witHistoryPercent, witHistoryOver]⟩⟩

/-- Issue fixture with a malformed percent value on the tenth day. -/
def witIssueBad : Issue :=
  ⟨"PRJ-3", witFields, ⟨[witHistoryPercent, witHistoryBad]⟩⟩

/-- Fields fixture whose percent custom field holds a string and whose
size custom field is absent. -/
def witFieldsOdd : Fields :=
  ⟨"another story", "To Do", "Task", "Grace",
    "2024-01-01T08:00:00.000+0000", "2024-01-01T08:00:00.000+0000",
    [("customfield_10002", JSONValue.str "0.7")]⟩

/-- Issue fixture built on the odd fields, with an empty changelog. -/
def witIssueOdd : Issue :=
  ⟨"PRJ-9", witFieldsOdd, ⟨[]⟩⟩

/-! ## Timestamp parsing (parseHistoryTimes)

parseHistoryTimes parses each history's Created string with time.Parse
and the fixed layout 2006-01-02T15:04:05.000-0700, then sorts the
histories by the parsed instant with sort.Slice.  The layout is parsed
here directly: four-digit year, two-digit month, day, hour, minute and
second with fixed separators, exactly three fractional digits, and a
signed four-digit zone offset.  The parser validates the ranges Go
validates on these components: month, day against the month length with
leap years, hour, minute and second.  The result is the absolute instant
in milliseconds since the Unix epoch. -/

/-- Whether a proleptic Gregorian year is a leap year. -/
def isLeapYear (y : Nat) : Bool :=
  (y % 4 == 0 && !(y % 100 == 0)) || y % 400 == 0

/-- Number of days of a month, with February depending on leap years. -/
def daysInMonth (y m : Nat) : Nat :=
  match m with
  | 1 => 31
  | 2 => if isLeapYear y then 29 else 28
  | 3 => 31
  | 4 => 30
  | 5 => 31
  | 6 => 30
  | 7 => 31
  | 8 => 31
  | 9 => 30
  | 10 => 31
  | 11 => 30
  | 12 => 31
  | _ => 0

/-- Days between a civil date and the Unix epoch, by the standard
era-based computation.  Integer division in Lean floors, which is what
the computation requires. -/
def daysFromCivil (y : Int) (m d : Nat) : Int :=
  let yAdj : Int := if m ≤ 2 then y - 1 else y
  let era : Int := yAdj / 400
  let yoe : Int := yAdj - era * 400
  let mp : Int := ((m : Int) + 9) % 12
  let doy : Int := (153 * mp + 2) / 5 + (d : Int) - 1
  let doe : Int := yoe * 365 + yoe / 4 - yoe / 100 + doy
  era * 146097 + doe - 719468

/-- Value of one decimal digit character. -/
def digitVal (c : Char) : Option Nat :=
  if c.isDigit then some (c.toNat - 48) else none

/-- Value of a two-digit decimal number. -/
def twoDigitNum (a b : Char) : Option Nat :=
  match digitVal a, digitVal b with
  | some x, some y => some (10 * x + y)
  | _, _ => none

/-- time.Parse with the fixed Jira layout, as an absolute instant in
milliseconds since the Unix epoch.  Returns none when the shape or a
component range is invalid, as time.Parse fails on such input. -/
def parseJiraTime (s : String) : Option Int :=
  match s.data with
  | [y1, y2, y3, y4, sep1, mo1, mo2, sep2, dd1, dd2, sepT, hh1, hh2, sep3,
     mi1, mi2, sep4, ss1, ss2, sepDot, f1, f2, f3, zsgn, z1, z2, z3, z4] =>
    if (sep1 == '-') && (sep2 == '-') && (sepT == 'T') && (sep3 == ':') &&
        (sep4 == ':') && (sepDot == '.') && ((zsgn == '+') || (zsgn == '-')) then
      match twoDigitNum y1 y2, twoDigitNum y3 y4, twoDigitNum mo1 mo2,
            twoDigitNum dd1 dd2, twoDigitNum hh1 hh2, twoDigitNum mi1 mi2,
            twoDigitNum ss1 ss2, digitVal f1, twoDigitNum f2 f3,
            twoDigitNum z1 z2, twoDigitNum z3 z4 with
      | some yh, some yl, some mo, some dd, some hh, some mi, some ss,
        some fHundreds, some fTens, some zh, some zm =>
        let y := 100 * yh + yl
        let ms := 100 * fHundreds + fTens
        if 1 ≤ mo && mo ≤ 12 && 1 ≤ dd && dd ≤ daysInMonth y mo &&
            hh ≤ 23 && mi ≤ 59 && ss ≤ 59 then
          let localMs : Int :=
            (daysFromCivil (y : Int) mo dd * 86400 +
              (hh : Int) * 3600 + (mi : Int) * 60 + (ss : Int)) * 1000 + (ms : Int)
          let offMs : Int := ((zh : Int) * 3600 + (zm : Int) * 60) * 1000
          if zsgn == '+' then some (localMs - offMs) else some (localMs + offMs)
        else none
      | _, _, _, _, _, _, _, _, _, _, _ => none
    else none
  | _ => none

/-- The parsing stage of parseHistoryTimes: parse every Created string and
store the instant in the private createdTime member; the first failure
aborts the whole call. -/
def parseAllHistoryTimes : List History → Option (List History)
  | [] => some []
  | h :: rest =>
    match parseJiraTime h.created with
    | none => none
    | some t =>
      match parseAllHistoryTimes rest with
      | none => none
      | some rest2 => some (History.mk h.created h.items t :: rest2)

/-- The comparison closure the code passes to sort.Slice: Before on the
parsed creation instants. -/
def historyLess (a b : History) : Bool :=
  a.createdTime < b.createdTime

/-- parseHistoryTimes modelled relationally.  The parsing stage is the
function parseAllHistoryTimes above; the subsequent call to sort.Slice is
modelled by its documented contract: it leaves in the slice a permutation
of its previous contents ordered so that no entry is strictly below a
predecessor under the comparison closure.  The sort.Slice documentation
states the sort is not guaranteed to be stable, so the contract promises
nothing about the relative order of equal keys; the relation therefore
accepts every output the library is permitted to produce. -/
def parseHistoryTimesRel (issue result : Issue) : Prop :=
  result.key = issue.key ∧ result.fields = issue.fields ∧
  ∃ parsed : List History,
    parseAllHistoryTimes issue.changelog.histories = some parsed ∧
    result.changelog.histories.Perm parsed ∧
    List.Pairwise (fun a b => historyLess b a = false) result.changelog.histories

/-- Tie stability in the sense of claim C2: for every instant, the
histories carrying that instant appear in the output in the same relative
order as in the parsed input. -/
def stableOnTies (parsed output : List History) : Prop :=
  ∀ t : Int, output.filter (fun h => h.createdTime == t) =
    parsed.filter (fun h => h.createdTime == t)

/-- First of two changelog entries sharing one created instant. -/
def tieHistoryA : History :=
  ⟨"2024-03-04T05:06:07.000+0000", [⟨"status", "jira", "To Do", "In Progress"⟩], 0⟩

/-- Second of two changelog entries sharing one created instant. -/
def tieHistoryB : History :=
  ⟨"2024-03-04T05:06:07.000+0000", [⟨"customfield_10002", "custom", "", "0.5"⟩], 0⟩

/-- The shared instant of the two tied entries, in epoch milliseconds. -/
def tieInstant : Int := 1709528767000

/-- The first tied entry with its parsed instant filled in. -/
def tieHistoryA1 : History :=
  ⟨"2024-03-04T05:06:07.000+0000", [⟨"status", "jira", "To Do", "In Progress"⟩], tieInstant⟩

/-- The second tied entry with its parsed instant filled in. -/
def tieHistoryB1 : History :=
  ⟨"2024-03-04T05:06:07.000+0000", [⟨"customfield_10002", "custom", "", "0.5"⟩], tieInstant⟩

/-- Issue whose changelog has the two tied entries in input order. -/
def tieIssue : Issue :=
  ⟨"PRJ-7", witFields, ⟨[tieHistoryA, tieHistoryB]⟩⟩

/-- A post-call state sort.Slice is permitted to leave: the two tied
entries parsed and swapped. -/
def tieIssueSwapped : Issue :=
  ⟨"PRJ-7", witFields, ⟨[tieHistoryB1, tieHistoryA1]⟩⟩

/-- A post-call state preserving input order of the tied entries. -/
def tieIssueParsed : Issue :=
  ⟨"PRJ-7", witFields, ⟨[tieHistoryA1, tieHistoryB1]⟩⟩

/-! ## Projections sheet (excel package, GenerateExcelReport)

GenerateExcelReport writes one row of the Projections sheet per week, in
chronological order, at sheet row weekIndex + 2 (row one holds headers).
Every cell value of a row is a spreadsheet formula built by fmt.Sprintf;
the model renders each formula as a small expression tree whose structure
mirrors the Sprintf template of the source one for one, with the
referenced cells as leaves.  Columns: A date, B completed, C remaining,
D velocity, E moving-average velocity, F standard deviation, G fast
projected date, H mean projected date, I slow projected date, J fast
band velocity, K slow band velocity. -/

/-- Formula expressions of the Projections sheet.  The aggregate leaves
stand for the fixed SUM/INDEX/MATCH, AVERAGE/OFFSET and STDEV/OFFSET
templates of the source, which reference the Work sheet or the trailing
velocity window of the given width ending at the given row. -/
inductive CellExpr where
  | ref (col : String) (row : Nat)
  | lit (n : Int)
  | add (a b : CellExpr)
  | sub (a b : CellExpr)
  | mul (a b : CellExpr)
  | div (a b : CellExpr)
  | ceilingFn (a b : CellExpr)
  | workdayFn (a b : CellExpr)
  | completedSum (row : Nat)
  | sizeSum
  | averageWindow (row w : Nat)
  | stdevWindow (row w : Nat)
deriving DecidableEq

/-- One row of the Projections sheet.  The optional cells are exactly the
ones the source writes under an index guard; a none means the loop body
never touched that cell, leaving it blank. -/
structure ProjectionRow where
  dateValue : String
  completed : CellExpr
  remaining : CellExpr
  velocity : Option CellExpr
  avgVelocity : Option CellExpr
  stdDevVelocity : Option CellExpr
  fastProjection : Option CellExpr
  meanProjection : Option CellExpr
  slowProjection : Option CellExpr
  fastVelocity : Option CellExpr
  slowVelocity : Option CellExpr
deriving DecidableEq

/-- The fast projected-date formula of sheet row rowNum: WORKDAY of the
date cell and CEILING of the remaining value over the fast band velocity
cell J, scaled by five. -/
def fastProjectionFormula (rowNum : Nat) : CellExpr :=
  CellExpr.workdayFn (CellExpr.ref "A" rowNum)
    (CellExpr.ceilingFn
      (CellExpr.mul (CellExpr.div (CellExpr.ref "C" rowNum) (CellExpr.ref "J" rowNum))
        (CellExpr.lit 5))
      (CellExpr.lit 1))

/-- The mean projected-date formula of sheet row rowNum, dividing by the
moving-average velocity cell E. -/
def meanProjectionFormula (rowNum : Nat) : CellExpr :=
  CellExpr.workdayFn (CellExpr.ref "A" rowNum)
    (CellExpr.ceilingFn
      (CellExpr.mul (CellExpr.div (CellExpr.ref "C" rowNum) (CellExpr.ref "E" rowNum))
        (CellExpr.lit 5))
      (CellExpr.lit 1))

/-- The slow projected-date formula of sheet row rowNum, dividing by the
slow band velocity cell K. -/
def slowProjectionFormula (rowNum : Nat) : CellExpr :=
  CellExpr.workdayFn (CellExpr.ref "A" rowNum)
    (CellExpr.ceilingFn
      (CellExpr.mul (CellExpr.div (CellExpr.ref "C" rowNum) (CellExpr.ref "K" rowNum))
        (CellExpr.lit 5))
      (CellExpr.lit 1))

/-- The loop body of the projection loop of GenerateExcelReport for the
week at the given zero-based index.  The date cell receives the formatted
week date; completed and remaining receive their formulas always;
velocity only when weekIndex exceeds zero, the moving average only when
it exceeds one, and the standard deviation, the two band velocities and
the three projected dates only when it exceeds two, exactly as the three
if statements of the source guard them.  The projected-date formulas are
WORKDAY of the row's date and CEILING of the remaining value divided by
the band's velocity cell times five. -/
def projectionRow (movingAvgWeeks : Nat) (weekIndex : Nat) (weekDateStr : String) :
    ProjectionRow :=
  let rowNum := weekIndex + 2
  { dateValue := weekDateStr
    completed := CellExpr.completedSum rowNum
    remaining := CellExpr.sub CellExpr.sizeSum (CellExpr.ref "B" rowNum)
    velocity :=
      if weekIndex > 0 then
        some (CellExpr.sub (CellExpr.ref "B" rowNum) (CellExpr.ref "B" (rowNum - 1)))
      else none
    avgVelocity :=
      if weekIndex > 1 then some (CellExpr.averageWindow rowNum movingAvgWeeks) else none
    stdDevVelocity :=
      if weekIndex > 2 then some (CellExpr.stdevWindow rowNum movingAvgWeeks) else none
    fastProjection :=
      if weekIndex > 2 then some (fastProjectionFormula rowNum) else none
    meanProjection :=
      if weekIndex > 2 then some (meanProjectionFormula rowNum) else none
    slowProjection :=
      if weekIndex > 2 then some (slowProjectionFormula rowNum) else none
    fastVelocity :=
      if weekIndex > 2 then
        some (CellExpr.add (CellExpr.ref "E" rowNum)
          (CellExpr.mul (CellExpr.lit 1) (CellExpr.ref "F" rowNum)))
      else none
    slowVelocity :=
      if weekIndex > 2 then
        some (CellExpr.sub (CellExpr.ref "E" rowNum)
          (CellExpr.mul (CellExpr.lit 1) (CellExpr.ref "F" rowNum)))
      else none }

/-- Errors of spreadsheet formula evaluation: the division-by-zero error
cell value, a reference to an empty cell, the numeric-domain error of
CEILING, and the aggregate leaves left outside the evaluation model. -/
inductive EvalErr where
  | divByZero
  | badRef
  | numError
  | unsupported
deriving DecidableEq

/-- Weekend test on spreadsheet serial day numbers: serials congruent to
zero or one modulo seven fall on Saturday or Sunday. -/
def isWeekendSerial (d : Int) : Bool :=
  d % 7 == 0 || d % 7 == 1

/-- Advance a serial day by one working day per step, skipping weekends
forward. -/
def addWorkdaysFwd : Int → Nat → Int
  | d, 0 => d
  | d, Nat.succ k =>
    let d1 := d + 1
    let d2 := if d1 % 7 == 0 then d1 + 2 else if d1 % 7 == 1 then d1 + 1 else d1
    addWorkdaysFwd d2 k

/-- Move a serial day back by one working day per step, skipping weekends
backward. -/
def addWorkdaysBack : Int → Nat → Int
  | d, 0 => d
  | d, Nat.succ k =>
    let d1 := d - 1
    let d2 := if d1 % 7 == 1 then d1 - 2 else if d1 % 7 == 0 then d1 - 1 else d1
    addWorkdaysBack d2 k

/-- WORKDAY over serial day numbers: the date the given count of working
days away, weekends skipped, backward for a negative count. -/
def workdaySerial (start : Int) (n : Int) : Int :=
  if 0 ≤ n then addWorkdaysFwd start n.toNat else addWorkdaysBack start (-n).toNat

/-- Truncation of a rational toward zero, as spreadsheet functions
truncate fractional day counts. -/
def ratTrunc (q : ℚ) : Int :=
  if 0 ≤ q then Int.floor q else -(Int.floor (-q))

/-- Evaluation of the modelled formulas against an environment giving the
numeric contents of cells by column and row.  Division by zero yields the
division-by-zero error; CEILING follows the legacy Excel function (least
multiple of the significance at or above the value for a positive
significance, zero for a zero significance, rounding away from zero when
value and significance are both negative, an error for a positive value
with negative significance); WORKDAY steps over working days.  The
aggregate leaves are outside the evaluation model. -/
def evalCellExpr (env : String → Nat → Option ℚ) : CellExpr → Except EvalErr ℚ
  | CellExpr.ref col row =>
    match env col row with
    | some v => Except.ok v
    | none => Except.error EvalErr.badRef
  | CellExpr.lit n => Except.ok (n : ℚ)
  | CellExpr.add a b =>
    match evalCellExpr env a, evalCellExpr env b with
    | Except.ok x, Except.ok y => Except.ok (x + y)
    | Except.error e, _ => Except.error e
    | _, Except.error e => Except.error e
  | CellExpr.sub a b =>
    match evalCellExpr env a, evalCellExpr env b with
    | Except.ok x, Except.ok y => Except.ok (x - y)
    | Except.error e, _ => Except.error e
    | _, Except.error e => Except.error e
  | CellExpr.mul a b =>
    match evalCellExpr env a, evalCellExpr env b with
    | Except.ok x, Except.ok y => Except.ok (x * y)
    | Except.error e, _ => Except.error e
    | _, Except.error e => Except.error e
  | CellExpr.div a b =>
    match evalCellExpr env a, evalCellExpr env b with
    | Except.ok x, Except.ok y =>
      if y = 0 then Except.error EvalErr.divByZero else Except.ok (x / y)
    | Except.error e, _ => Except.error e
    | _, Except.error e => Except.error e
  | CellExpr.ceilingFn a b =>
    match evalCellExpr env a, evalCellExpr env b with
    | Except.ok x, Except.ok s =>
      if s = 0 then Except.ok 0
      else if 0 < s then Except.ok (s * (Int.ceil (x / s) : ℚ))
      else if x ≤ 0 then Except.ok (s * (Int.ceil (x / s) : ℚ))
      else Except.error EvalErr.numError
    | Except.error e, _ => Except.error e
    | _, Except.error e => Except.error e
  | CellExpr.workdayFn a b =>
    match evalCellExpr env a, evalCellExpr env b with
    | Except.ok d, Except.ok n =>
      Except.ok ((workdaySerial (Int.floor d) (ratTrunc n) : Int) : ℚ)
    | Except.error e, _ => Except.error e
    | _, Except.error e => Except.error e
  | CellExpr.completedSum _ => Except.error EvalErr.unsupported
  | CellExpr.sizeSum => Except.error EvalErr.unsupported
  | CellExpr.averageWindow _ _ => Except.error EvalErr.unsupported
  | CellExpr.stdevWindow _ _ => Except.error EvalErr.unsupported

/-- A concrete sheet state for the projection rows: sixty units remain,
and all three band velocity cells hold zero. -/
def zeroVelocityEnv : String → Nat → Option ℚ :=
  fun col _row =>
    if col = "A" then some 45317
    else if col = "C" then some 60
    else if col = "J" then some 0
    else if col = "E" then some 0
    else if col = "K" then some 0
    else none

/-! ## Scan lemmas

Structural facts about the percent-complete scan, stated against the
embedded definitions above. -/

/-- Whether an Except value is the ok case. -/
def exceptOk {ε α : Type} : Except ε α → Bool
  | Except.ok _ => true
  | Except.error _ => false

/-- Every percent-complete field change among the given items carries a
parseable value. -/
def itemsParse (config : Config) (items : List HistoryItem) : Prop :=
  ∀ it ∈ items, it.field = config.jira.percentCompleteField →
    (parseFloat it.toString).isSome = true

/-- Every percent-complete field change recorded strictly before the bound
carries a parseable value. -/
def windowParses (config : Config) (bound : Int) (hs : List History) : Prop :=
  ∀ h ∈ hs, h.createdTime < bound → itemsParse config h.items

lemma scanItems_ok_iff (config : Config) (items : List HistoryItem) :
    ∀ pc : ℚ, exceptOk (scanItems config pc items) = true ↔ itemsParse config items := by
  induction items with
  | nil =>
    intro pc
    simp [scanItems, exceptOk, itemsParse]
  | cons item rest ih =>
    intro pc
    by_cases hpf : (item.field == config.jira.percentCompleteField) = true
    · rcases hp : parseFloat item.toString with _ | v
      · simp only [scanItems, hpf, if_true, hp]
        refine iff_of_false (by simp [exceptOk]) ?_
        intro hall
        have := hall item (List.mem_cons_self item rest) (by simpa using hpf)
        rw [hp] at this
        simp at this
      · simp only [scanItems, hpf, if_true, hp]
        rw [ih]
        constructor
        · intro hrest it hit hfield
          rcases List.mem_cons.mp hit with h | h
          · subst h; rw [hp]; rfl
          · exact hrest it h hfield
        · intro hall it hit hfield
          exact hall it (List.mem_cons_of_mem _ hit) hfield
    · have hstep : scanItems config pc (item :: rest) =
          if item.field == "status" then
            if config.IsDoneStatus item.toString then scanItems config 1 rest
            else scanItems config pc rest
          else scanItems config pc rest := by
        simp only [scanItems, hpf]
        simp
      have hfield : ¬ item.field = config.jira.percentCompleteField := by
        intro h; exact hpf (by simpa using h)
      have hrest : ∀ pc0 : ℚ, (exceptOk (scanItems config pc0 rest) = true ↔
          itemsParse config (item :: rest)) := by
        intro pc0
        rw [ih pc0]
        constructor
        · intro hall it hit hf
          rcases List.mem_cons.mp hit with h | h
          · exact absurd (h ▸ hf) hfield
          · exact hall it h hf
        · intro hall it hit hf
          exact hall it (List.mem_cons_of_mem _ hit) hf
      rw [hstep]
      by_cases hst : (item.field == "status") = true
      · by_cases hdone : config.IsDoneStatus item.toString = true
        · simp only [hst, hdone, if_true]
          exact hrest 1
        · simp only [hst, if_true, hdone, if_false]
          exact hrest pc
      · simp only [hst, if_false]
        exact hrest pc

lemma scanHistories_ok_iff (config : Config) (bound : Int) (hs : List History) :
    ∀ pc : ℚ, exceptOk (scanHistories config bound pc hs) = true ↔
      windowParses config bound hs := by
  induction hs with
  | nil =>
    intro pc
    simp [scanHistories, exceptOk, windowParses]
  | cons h rest ih =>
    intro pc
    by_cases hin : h.createdTime < bound
    · simp only [scanHistories, hin, if_true]
      rcases hscan : scanItems config pc h.items with e | q
      · refine iff_of_false (by simp [exceptOk]) ?_
        intro hall
        have hitems : itemsParse config h.items :=
          hall h (List.mem_cons_self h rest) hin
        have := (scanItems_ok_iff config h.items pc).mpr hitems
        rw [hscan] at this
        simp [exceptOk] at this
      · rw [ih q]
        constructor
        · intro hall g hg hgt
          rcases List.mem_cons.mp hg with hq | hq
          · subst hq
            have := (scanItems_ok_iff config g.items pc).mp (by rw [hscan]; rfl)
            exact this
          · exact hall g hq hgt
        · intro hall g hg hgt
          exact hall g (List.mem_cons_of_mem _ hg) hgt
    · simp only [scanHistories, hin, if_false]
      rw [ih pc]
      constructor
      · intro hall g hg hgt
        rcases List.mem_cons.mp hg with hq | hq
        · subst hq; exact absurd hgt hin
        · exact hall g hq hgt
      · intro hall g hg hgt
        exact hall g (List.mem_cons_of_mem _ hg) hgt

lemma min_one_max_mono {a b v : ℚ} (h : min a 1 ≤ min b 1) :
    min (max a v) 1 ≤ min (max b v) 1 := by
  rcases le_or_lt 1 b with hb | hb
  · have hbv : (1:ℚ) ≤ max b v := le_trans hb (le_max_left b v)
    rw [min_eq_right hbv]
    exact min_le_right _ _
  · rw [min_eq_left hb.le] at h
    rcases le_or_lt a 1 with ha | ha
    · rw [min_eq_left ha] at h
      exact min_le_min (max_le_max h (le_refl v)) (le_refl 1)
    · rw [min_eq_right ha.le] at h
      exact absurd h (not_le.mpr hb)

lemma scanItems_ok_nonneg (config : Config) (items : List HistoryItem) :
    ∀ pc r : ℚ, 0 ≤ pc → scanItems config pc items = Except.ok r → 0 ≤ r := by
  induction items with
  | nil =>
    intro pc r hpc hok
    simp only [scanItems, Except.ok.injEq] at hok
    exact hok ▸ hpc
  | cons item rest ih =>
    intro pc r hpc hok
    by_cases hpf : (item.field == config.jira.percentCompleteField) = true
    · rcases hp : parseFloat item.toString with _ | v
      · simp [scanItems, hpf, hp] at hok
      · simp only [scanItems, hpf, if_true, hp] at hok
        exact ih (max pc v) r (le_trans hpc (le_max_left pc v)) hok
    · simp only [scanItems, hpf, if_false] at hok
      by_cases hst : (item.field == "status") = true
      · by_cases hdone : config.IsDoneStatus item.toString = true
        · rw [if_pos hst, if_pos hdone] at hok
          exact ih 1 r (by norm_num) hok
        · rw [if_pos hst, if_neg hdone] at hok
          exact ih pc r hpc hok
      · rw [if_neg hst] at hok
        exact ih pc r hpc hok

lemma scanItems_cap_le (config : Config) (items : List HistoryItem) :
    ∀ pc r : ℚ, scanItems config pc items = Except.ok r → min pc 1 ≤ min r 1 := by
  induction items with
  | nil =>
    intro pc r hok
    simp only [scanItems, Except.ok.injEq] at hok
    exact hok ▸ le_refl _
  | cons item rest ih =>
    intro pc r hok
    by_cases hpf : (item.field == config.jira.percentCompleteField) = true
    · rcases hp : parseFloat item.toString with _ | v
      · simp [scanItems, hpf, hp] at hok
      · simp only [scanItems, hpf, if_true, hp] at hok
        refine le_trans ?_ (ih (max pc v) r hok)
        exact min_le_min (le_max_left pc v) (le_refl 1)
    · simp only [scanItems, hpf, if_false] at hok
      by_cases hst : (item.field == "status") = true
      · by_cases hdone : config.IsDoneStatus item.toString = true
        · rw [if_pos hst, if_pos hdone] at hok
          refine le_trans ?_ (ih 1 r hok)
          simp
        · rw [if_pos hst, if_neg hdone] at hok
          exact ih pc r hok
      · rw [if_neg hst] at hok
        exact ih pc r hok

lemma scanItems_cap_mono (config : Config) (items : List HistoryItem) :
    ∀ pc₁ pc₂ r₁ r₂ : ℚ, min pc₁ 1 ≤ min pc₂ 1 →
      scanItems config pc₁ items = Except.ok r₁ →
      scanItems config pc₂ items = Except.ok r₂ → min r₁ 1 ≤ min r₂ 1 := by
  induction items with
  | nil =>
    intro pc₁ pc₂ r₁ r₂ hle h1 h2
    simp only [scanItems, Except.ok.injEq] at h1 h2
    exact h1 ▸ h2 ▸ hle
  | cons item rest ih =>
    intro pc₁ pc₂ r₁ r₂ hle h1 h2
    by_cases hpf : (item.field == config.jira.percentCompleteField) = true
    · rcases hp : parseFloat item.toString with _ | v
      · simp [scanItems, hpf, hp] at h1
      · simp only [scanItems, hpf, if_true, hp] at h1 h2
        exact ih _ _ r₁ r₂ (min_one_max_mono hle) h1 h2
    · simp only [scanItems, hpf, if_false] at h1 h2
      by_cases hst : (item.field == "status") = true
      · by_cases hdone : config.IsDoneStatus item.toString = true
        · rw [if_pos hst, if_pos hdone] at h1 h2
          exact ih 1 1 r₁ r₂ (le_refl _) h1 h2
        · rw [if_pos hst, if_neg hdone] at h1 h2
          exact ih pc₁ pc₂ r₁ r₂ hle h1 h2
      · rw [if_neg hst] at h1 h2
        exact ih pc₁ pc₂ r₁ r₂ hle h1 h2

lemma scanItems_ge_one (config : Config) (items : List HistoryItem) :
    ∀ pc r : ℚ, 1 ≤ pc → scanItems config pc items = Except.ok r → 1 ≤ r := by
  induction items with
  | nil =>
    intro pc r hpc hok
    simp only [scanItems, Except.ok.injEq] at hok
    exact hok ▸ hpc
  | cons item rest ih =>
    intro pc r hpc hok
    by_cases hpf : (item.field == config.jira.percentCompleteField) = true
    · rcases hp : parseFloat item.toString with _ | v
      · simp [scanItems, hpf, hp] at hok
      · simp only [scanItems, hpf, if_true, hp] at hok
        exact ih (max pc v) r (le_trans hpc (le_max_left pc v)) hok
    · simp only [scanItems, hpf, if_false] at hok
      by_cases hst : (item.field == "status") = true
      · by_cases hdone : config.IsDoneStatus item.toString = true
        · rw [if_pos hst, if_pos hdone] at hok
          exact ih 1 r (le_refl 1) hok
        · rw [if_pos hst, if_neg hdone] at hok
          exact ih pc r hpc hok
      · rw [if_neg hst] at hok
        exact ih pc r hpc hok

lemma scanItems_done_ge_one (config : Config) (items : List HistoryItem)
    (hne : config.jira.percentCompleteField ≠ "status") :
    ∀ it ∈ items, it.field = "status" → config.IsDoneStatus it.toString = true →
      ∀ pc r : ℚ, scanItems config pc items = Except.ok r → 1 ≤ r := by
  induction items with
  | nil =>
    intro it hit
    exact absurd hit (List.not_mem_nil it)
  | cons item rest ih =>
    intro it hit hstatus hdone pc r hok
    rcases List.mem_cons.mp hit with heq | hmem
    · subst heq
      have hpf : (it.field == config.jira.percentCompleteField) = false := by
        rw [hstatus]
        exact beq_false_of_ne (fun h => hne h.symm)
      have hst : (it.field == "status") = true := by simpa using hstatus
      simp only [scanItems, hpf, if_false, hst, if_true, hdone] at hok
      exact scanItems_ge_one config rest 1 r (le_refl 1) hok
    · by_cases hpf : (item.field == config.jira.percentCompleteField) = true
      · rcases hp : parseFloat item.toString with _ | v
        · simp [scanItems, hpf, hp] at hok
        · simp only [scanItems, hpf, if_true, hp] at hok
          exact ih it hmem hstatus hdone (max pc v) r hok
      · simp only [scanItems, hpf, if_false] at hok
        by_cases hst : (item.field == "status") = true
        · by_cases hd : config.IsDoneStatus item.toString = true
          · rw [if_pos hst, if_pos hd] at hok
            exact ih it hmem hstatus hdone 1 r hok
          · rw [if_pos hst, if_neg hd] at hok
            exact ih it hmem hstatus hdone pc r hok
        · rw [if_neg hst] at hok
          exact ih it hmem hstatus hdone pc r hok

lemma scanHistories_ok_nonneg (config : Config) (bound : Int) (hs : List History) :
    ∀ pc r : ℚ, 0 ≤ pc → scanHistories config bound pc hs = Except.ok r → 0 ≤ r := by
  induction hs with
  | nil =>
    intro pc r hpc hok
    simp only [scanHistories, Except.ok.injEq] at hok
    exact hok ▸ hpc
  | cons h rest ih =>
    intro pc r hpc hok
    by_cases hin : h.createdTime < bound
    · simp only [scanHistories, hin, if_true] at hok
      rcases hscan : scanItems config pc h.items with e | q
      · rw [hscan] at hok; cases hok
      · rw [hscan] at hok
        exact ih q r (scanItems_ok_nonneg config h.items pc q hpc hscan) hok
    · simp only [scanHistories, hin, if_false] at hok
      exact ih pc r hpc hok

lemma scanHistories_cap_le (config : Config) (bound : Int) (hs : List History) :
    ∀ pc r : ℚ, scanHistories config bound pc hs = Except.ok r → min pc 1 ≤ min r 1 := by
  induction hs with
  | nil =>
    intro pc r hok
    simp only [scanHistories, Except.ok.injEq] at hok
    exact hok ▸ le_refl _
  | cons h rest ih =>
    intro pc r hok
    by_cases hin : h.createdTime < bound
    · simp only [scanHistories, hin, if_true] at hok
      rcases hscan : scanItems config pc h.items with e | q
      · rw [hscan] at hok; cases hok
      · rw [hscan] at hok
        exact le_trans (scanItems_cap_le config h.items pc q hscan) (ih q r hok)
    · simp only [scanHistories, hin, if_false] at hok
      exact ih pc r hok

lemma scanHistories_cap_mono (config : Config) (b₁ b₂ : Int) (hb : b₁ ≤ b₂)
    (hs : List History) :
    ∀ pc₁ pc₂ r₁ r₂ : ℚ, min pc₁ 1 ≤ min pc₂ 1 →
      scanHistories config b₁ pc₁ hs = Except.ok r₁ →
      scanHistories config b₂ pc₂ hs = Except.ok r₂ → min r₁ 1 ≤ min r₂ 1 := by
  induction hs with
  | nil =>
    intro pc₁ pc₂ r₁ r₂ hle h1 h2
    simp only [scanHistories, Except.ok.injEq] at h1 h2
    exact h1 ▸ h2 ▸ hle
  | cons h rest ih =>
    intro pc₁ pc₂ r₁ r₂ hle h1 h2
    by_cases hin1 : h.createdTime < b₁
    · have hin2 : h.createdTime < b₂ := lt_of_lt_of_le hin1 hb
      simp only [scanHistories, hin1, hin2, if_true] at h1 h2
      rcases hscan1 : scanItems config pc₁ h.items with e | q₁
      · rw [hscan1] at h1; cases h1
      · rcases hscan2 : scanItems config pc₂ h.items with e | q₂
        · rw [hscan2] at h2; cases h2
        · rw [hscan1] at h1
          rw [hscan2] at h2
          exact ih q₁ q₂ r₁ r₂
            (scanItems_cap_mono config h.items pc₁ pc₂ q₁ q₂ hle hscan1 hscan2) h1 h2
    · by_cases hin2 : h.createdTime < b₂
      · simp only [scanHistories, hin1, hin2, if_true, if_false] at h1 h2
        rcases hscan2 : scanItems config pc₂ h.items with e | q₂
        · rw [hscan2] at h2; cases h2
        · rw [hscan2] at h2
          exact ih pc₁ q₂ r₁ r₂
            (le_trans hle (scanItems_cap_le config h.items pc₂ q₂ hscan2)) h1 h2
      · simp only [scanHistories, hin1, hin2, if_false] at h1 h2
        exact ih pc₁ pc₂ r₁ r₂ hle h1 h2

lemma scanHistories_ge_one (config : Config) (bound : Int) (hs : List History) :
    ∀ pc r : ℚ, 1 ≤ pc → scanHistories config bound pc hs = Except.ok r → 1 ≤ r := by
  induction hs with
  | nil =>
    intro pc r hpc hok
    simp only [scanHistories, Except.ok.injEq] at hok
    exact hok ▸ hpc
  | cons h rest ih =>
    intro pc r hpc hok
    by_cases hin : h.createdTime < bound
    · simp only [scanHistories, hin, if_true] at hok
      rcases hscan : scanItems config pc h.items with e | q
      · rw [hscan] at hok; cases hok
      · rw [hscan] at hok
        exact ih q r (scanItems_ge_one config h.items pc q hpc hscan) hok
    · simp only [scanHistories, hin, if_false] at hok
      exact ih pc r hpc hok

lemma scanHistories_done_ge_one (config : Config) (bound : Int) (hs : List History)
    (hne : config.jira.percentCompleteField ≠ "status") :
    ∀ h ∈ hs, h.createdTime < bound →
      ∀ it ∈ h.items, it.field = "status" → config.IsDoneStatus it.toString = true →
        ∀ pc r : ℚ, scanHistories config bound pc hs = Except.ok r → 1 ≤ r := by
  induction hs with
  | nil =>
    intro h hh
    exact absurd hh (List.not_mem_nil h)
  | cons g rest ih =>
    intro h hh hugt it hit hstatus hdone pc r hok
    rcases List.mem_cons.mp hh with heq | hmem
    · subst heq
      simp only [scanHistories, hugt, if_true] at hok
      rcases hscan : scanItems config pc h.items with e | q
      · rw [hscan] at hok; cases hok
      · rw [hscan] at hok
        have hq : 1 ≤ q :=
          scanItems_done_ge_one config h.items hne it hit hstatus hdone pc q hscan
        exact scanHistories_ge_one config bound rest q r hq hok
    · by_cases hin : g.createdTime < bound
      · simp only [scanHistories, hin, if_true] at hok
        rcases hscan : scanItems config pc g.items with e | q
        · rw [hscan] at hok; cases hok
        · rw [hscan] at hok
          exact ih h hmem hugt it hit hstatus hdone q r hok
      · simp only [scanHistories, hin, if_false] at hok
        exact ih h hmem hugt it hit hstatus hdone pc r hok

lemma scanHistories_filter (config : Config) (bound : Int) (hs : List History) :
    ∀ pc : ℚ, scanHistories config bound pc hs =
      scanHistories config bound pc (hs.filter fun h => h.createdTime < bound) := by
  induction hs with
  | nil =>
    intro pc
    simp [List.filter]
  | cons h rest ih =>
    intro pc
    by_cases hin : h.createdTime < bound
    · have hfil : (h :: rest).filter (fun g => decide (g.createdTime < bound)) =
          h :: rest.filter (fun g => decide (g.createdTime < bound)) := by
        simp [List.filter, hin]
      rw [hfil]
      simp only [scanHistories, hin, if_true]
      rcases hscan : scanItems config pc h.items with e | q
      · rfl
      · exact ih q
    · have hfil : (h :: rest).filter (fun g => decide (g.createdTime < bound)) =
          rest.filter (fun g => decide (g.createdTime < bound)) := by
        simp [List.filter, hin]
      rw [hfil]
      simp only [scanHistories, hin, if_false]
      exact ih pc

lemma clampPercent_eq_min {pc : ℚ} (hpc : 0 ≤ pc) : clampPercent pc = min pc 1 := by
  simp only [clampPercent, min_def]
  split_ifs <;> linarith

lemma clampPercent_mem (pc : ℚ) : 0 ≤ clampPercent pc ∧ clampPercent pc ≤ 1 := by
  simp only [clampPercent]
  split_ifs <;> constructor <;> linarith

lemma clampPercent_of_ge_one {pc : ℚ} (hpc : 1 ≤ pc) : clampPercent pc = 1 := by
  rw [clampPercent_eq_min (le_trans (by norm_num) hpc), min_eq_right hpc]

/-! ## Claim theorems about PercentCompleteOnDate -/

/-- Claim C1: for every issue with a fixed, parsed event history and every
pair of query dates d1 and d2 with d1 at most d2, if PercentCompleteOnDate
succeeds on both dates then the result at d1 is less than or equal to the
result at d2: completion is non-decreasing in the query date. -/
theorem PercentCompleteOnDate_monotone (issue : Issue) (config : Config)
    (d1 d2 : Int) (hd : d1 ≤ d2)
    (h1 : (issue.PercentCompleteOnDate config d1).2 = none)
    (h2 : (issue.PercentCompleteOnDate config d2).2 = none) :
    (issue.PercentCompleteOnDate config d1).1 ≤
      (issue.PercentCompleteOnDate config d2).1 := by
  rcases hscan1 : scanHistories config (d1 + oneDayMs) 0 issue.changelog.histories with e | r₁
  · simp [Issue.PercentCompleteOnDate, hscan1] at h1
  · rcases hscan2 : scanHistories config (d2 + oneDayMs) 0 issue.changelog.histories with e | r₂
    · simp [Issue.PercentCompleteOnDate, hscan2] at h2
    · have hb : d1 + oneDayMs ≤ d2 + oneDayMs := by linarith
      have hr₁ : 0 ≤ r₁ :=
        scanHistories_ok_nonneg config _ _ 0 r₁ le_rfl hscan1
      have hr₂ : 0 ≤ r₂ :=
        scanHistories_ok_nonneg config _ _ 0 r₂ le_rfl hscan2
      have hcap := scanHistories_cap_mono config _ _ hb issue.changelog.histories
        0 0 r₁ r₂ le_rfl hscan1 hscan2
      simp only [Issue.PercentCompleteOnDate, hscan1, hscan2]
      rw [clampPercent_eq_min hr₁, clampPercent_eq_min hr₂]
      exact hcap

/-- Witness for C1 at a concrete issue: completion at the first day is at
most completion at the third day, both calls succeeding. -/
theorem PercentCompleteOnDate_monotone_witness :
    (witIssueDone.PercentCompleteOnDate witConfig 0).2 = none ∧
    (witIssueDone.PercentCompleteOnDate witConfig (2 * oneDayMs)).2 = none ∧
    (witIssueDone.PercentCompleteOnDate witConfig 0).1 ≤
      (witIssueDone.PercentCompleteOnDate witConfig (2 * oneDayMs)).1 :=
  ⟨by with_unfolding_all rfl, by with_unfolding_all rfl,
    PercentCompleteOnDate_monotone witIssueDone witConfig 0 (2 * oneDayMs)
      (by norm_num [oneDayMs]) (by with_unfolding_all rfl) (by with_unfolding_all rfl)⟩

/-- Claim C4: a status change into the configured done set recorded at or
before the end of the query date's calendar day forces a successful
PercentCompleteOnDate to return exactly one, regardless of any parseable
numeric percent-field values recorded before or after that event and of
any later non-done status change inside the window.  The configured
percent-complete field is assumed distinct from the built-in status field,
as the configuration schema intends. -/
theorem PercentCompleteOnDate_done_override (issue : Issue) (config : Config)
    (date : Int) (h : History) (it : HistoryItem)
    (hne : config.jira.percentCompleteField ≠ "status")
    (hh : h ∈ issue.changelog.histories)
    (htime : h.createdTime < date + oneDayMs)
    (hit : it ∈ h.items)
    (hstatus : it.field = "status")
    (hdone : config.IsDoneStatus it.toString = true)
    (hok : (issue.PercentCompleteOnDate config date).2 = none) :
    (issue.PercentCompleteOnDate config date).1 = 1 := by
  rcases hscan : scanHistories config (date + oneDayMs) 0 issue.changelog.histories with e | r
  · simp [Issue.PercentCompleteOnDate, hscan] at hok
  · have hr : 1 ≤ r :=
      scanHistories_done_ge_one config (date + oneDayMs) issue.changelog.histories
        hne h hh htime it hit hstatus hdone 0 r hscan
    simp only [Issue.PercentCompleteOnDate, hscan]
    exact clampPercent_of_ge_one hr

/-- Witness for C4: querying the fifth day of an issue done on the third
day, with a percent value of 0.5 recorded on the fourth, yields exactly
one. -/
theorem PercentCompleteOnDate_done_override_witness :
    (witIssueDone.PercentCompleteOnDate witConfig (4 * oneDayMs)).1 = 1 :=
  PercentCompleteOnDate_done_override witIssueDone witConfig (4 * oneDayMs)
    witHistoryDone ⟨"status", "jira", "In Progress", "Done"⟩
    (by decide)
    (by simp [witIssueDone])
    (by norm_num [witHistoryDone, oneDayMs])
    (by simp [witHistoryDone])
    rfl
    (by decide)
    (by with_unfolding_all rfl)

/-- Claim C5: whenever PercentCompleteOnDate succeeds, its result lies in
the closed interval from zero to one, even when the event log records
percent values outside that range. -/
theorem PercentCompleteOnDate_clamped (issue : Issue) (config : Config) (date : Int)
    (hok : (issue.PercentCompleteOnDate config date).2 = none) :
    0 ≤ (issue.PercentCompleteOnDate config date).1 ∧
      (issue.PercentCompleteOnDate config date).1 ≤ 1 := by
  rcases hscan : scanHistories config (date + oneDayMs) 0 issue.changelog.histories with e | r
  · simp [Issue.PercentCompleteOnDate, hscan] at hok
  · simp only [Issue.PercentCompleteOnDate, hscan]
    exact clampPercent_mem r

/-- Witness for C5: an issue whose log records the out-of-range value 1.5
still yields a completion inside the unit interval. -/
theorem PercentCompleteOnDate_clamped_witness :
    (witIssueOver.PercentCompleteOnDate witConfig (2 * oneDayMs)).2 = none ∧
    (0 ≤ (witIssueOver.PercentCompleteOnDate witConfig (2 * oneDayMs)).1 ∧
      (witIssueOver.PercentCompleteOnDate witConfig (2 * oneDayMs)).1 ≤ 1) :=
  ⟨by with_unfolding_all rfl,
    PercentCompleteOnDate_clamped witIssueOver witConfig (2 * oneDayMs)
      (by with_unfolding_all rfl)⟩

/-- Claim C6: PercentCompleteOnDate considers exactly the events whose
parsed timestamp is strictly before the query date plus one day: the call
returns the same value and error as the call on the issue whose changelog
is restricted to that window, for every issue, configuration and date. -/
theorem PercentCompleteOnDate_window (issue : Issue) (config : Config) (date : Int) :
    issue.PercentCompleteOnDate config date =
      (filterWindow issue date).PercentCompleteOnDate config date := by
  simp only [Issue.PercentCompleteOnDate, filterWindow]
  rw [← scanHistories_filter]

/-- Claim C8: a percent-complete change inside the scanned window whose
recorded value does not parse as a number makes PercentCompleteOnDate
return the zero completion together with an error; the offending event is
never skipped. -/
theorem PercentCompleteOnDate_valueParseError (issue : Issue) (config : Config)
    (date : Int) (h : History) (it : HistoryItem)
    (hh : h ∈ issue.changelog.histories)
    (htime : h.createdTime < date + oneDayMs)
    (hit : it ∈ h.items)
    (hfield : it.field = config.jira.percentCompleteField)
    (hbad : parseFloat it.toString = none) :
    (issue.PercentCompleteOnDate config date).1 = 0 ∧
      (issue.PercentCompleteOnDate config date).2.isSome = true := by
  rcases hscan : scanHistories config (date + oneDayMs) 0 issue.changelog.histories with e | r
  · simp [Issue.PercentCompleteOnDate, hscan]
  · exfalso
    have hwp : windowParses config (date + oneDayMs) issue.changelog.histories :=
      (scanHistories_ok_iff config (date + oneDayMs) issue.changelog.histories 0).mp
        (by rw [hscan]; rfl)
    have hps := hwp h hh htime it hit hfield
    rw [hbad] at hps
    simp at hps

/-- Witness for C8: the malformed value on the tenth day makes the call
for that day fail with the zero completion. -/
theorem PercentCompleteOnDate_valueParseError_witness :
    (witIssueBad.PercentCompleteOnDate witConfig (9 * oneDayMs)).1 = 0 ∧
      (witIssueBad.PercentCompleteOnDate witConfig (9 * oneDayMs)).2.isSome = true :=
  PercentCompleteOnDate_valueParseError witIssueBad witConfig (9 * oneDayMs)
    witHistoryBad ⟨"customfield_10002", "custom", "0.5", "oops"⟩
    (by simp [witIssueBad])
    (by norm_num [witHistoryBad, oneDayMs])
    (by simp [witHistoryBad])
    rfl
    (by with_unfolding_all rfl)

/-- Claim C9: the error result depends only on events inside the scanned
window: when every percent-complete change recorded strictly before the
beginning of the day after the query date parses, the call succeeds, even
if later events carry unparseable values. -/
theorem PercentCompleteOnDate_success_ignores_future (issue : Issue) (config : Config)
    (date : Int)
    (hall : windowParses config (date + oneDayMs) issue.changelog.histories) :
    (issue.PercentCompleteOnDate config date).2 = none := by
  rcases hscan : scanHistories config (date + oneDayMs) 0 issue.changelog.histories with e | r
  · exfalso
    have := (scanHistories_ok_iff config (date + oneDayMs) issue.changelog.histories 0).mpr hall
    rw [hscan] at this
    simp [exceptOk] at this
  · simp [Issue.PercentCompleteOnDate, hscan]

/-- Witness for C9: the issue whose tenth-day value is malformed still
succeeds when queried on the second day, since the bad event lies beyond
the window. -/
theorem PercentCompleteOnDate_success_ignores_future_witness :
    (witIssueBad.PercentCompleteOnDate witConfig oneDayMs).2 = none :=
  PercentCompleteOnDate_success_ignores_future witIssueBad witConfig oneDayMs
    (by
      intro h hh htime it hit hfield
      simp only [witIssueBad, witHistoryPercent, witHistoryBad,
        List.mem_cons, List.mem_singleton, List.not_mem_nil, or_false] at hh
      rcases hh with hh | hh
      · subst hh
        simp at hit
        subst hit
        with_unfolding_all rfl
      · subst hh
        norm_num [oneDayMs] at htime)

/-! ## Lemmas and claim theorems about parseHistoryTimes -/

lemma parseAllHistoryTimes_mem_parse :
    ∀ hs ps : List History, parseAllHistoryTimes hs = some ps →
      ∀ h ∈ ps, parseJiraTime h.created = some h.createdTime := by
  intro hs
  induction hs with
  | nil =>
    intro ps hps h hh
    simp only [parseAllHistoryTimes, Option.some.injEq] at hps
    subst hps
    simp at hh
  | cons g rest ih =>
    intro ps hps h hh
    rcases hpt : parseJiraTime g.created with _ | t
    · simp [parseAllHistoryTimes, hpt] at hps
    · rcases hrest : parseAllHistoryTimes rest with _ | ps2
      · simp [parseAllHistoryTimes, hpt, hrest] at hps
      · simp only [parseAllHistoryTimes, hpt, hrest, Option.some.injEq] at hps
        subst hps
        rcases List.mem_cons.mp hh with heq | hmem
        · subst heq
          exact hpt
        · exact ih ps2 hrest h hmem

lemma parseAllHistoryTimes_map_eq :
    ∀ hs ps : List History, parseAllHistoryTimes hs = some ps →
      ps.map (fun h => (h.created, h.items)) = hs.map (fun h => (h.created, h.items)) := by
  intro hs
  induction hs with
  | nil =>
    intro ps hps
    simp only [parseAllHistoryTimes, Option.some.injEq] at hps
    subst hps
    rfl
  | cons g rest ih =>
    intro ps hps
    rcases hpt : parseJiraTime g.created with _ | t
    · simp [parseAllHistoryTimes, hpt] at hps
    · rcases hrest : parseAllHistoryTimes rest with _ | ps2
      · simp [parseAllHistoryTimes, hpt, hrest] at hps
      · simp only [parseAllHistoryTimes, hpt, hrest, Option.some.injEq] at hps
        subst hps
        simp only [List.map_cons]
        rw [ih ps2 hrest]

/-- Counterexample to claim C2 as stated: on a changelog with two entries
sharing one parsed instant, the sort.Slice contract admits the sorted
output that swaps the tied entries, so the relative input order of
identical timestamps is not preserved.  The sort.Slice documentation
itself warrants this outcome by declaring the sort unstable. -/
theorem parseHistoryTimes_unstable_case :
    parseHistoryTimesRel tieIssue tieIssueSwapped ∧
    ¬ stableOnTies [tieHistoryA1, tieHistoryB1] tieIssueSwapped.changelog.histories := by
  constructor
  · refine ⟨rfl, rfl, [tieHistoryA1, tieHistoryB1], rfl, ?_, ?_⟩
    · simpa [tieIssueSwapped] using List.Perm.swap tieHistoryA1 tieHistoryB1 []
    · decide
  · intro hstable
    exact absurd (hstable tieInstant) (by decide)

/-- Claim C2 amended: after parseHistoryTimes succeeds, the changelog
histories are sorted ascending by parsed timestamp, each carries exactly
the parse of its Created string, and they are a permutation of the input
events; the relative order of entries with an identical parsed timestamp
is however not guaranteed, because sort.Slice is not a stable sort. -/
theorem parseHistoryTimes_sorted (issue result : Issue)
    (hrel : parseHistoryTimesRel issue result) :
    List.Sorted (fun a b : Int => a ≤ b) (result.changelog.histories.map History.createdTime) ∧
    (∀ h ∈ result.changelog.histories, parseJiraTime h.created = some h.createdTime) ∧
    (result.changelog.histories.map (fun h => (h.created, h.items))).Perm
      (issue.changelog.histories.map (fun h => (h.created, h.items))) := by
  obtain ⟨hkey, hfields, parsed, hparse, hperm, hpair⟩ := hrel
  refine ⟨?_, ?_, ?_⟩
  · show List.Pairwise _ _
    rw [List.pairwise_map]
    refine hpair.imp ?_
    intro a b hab
    simp only [historyLess, decide_eq_false_iff_not, not_lt] at hab
    exact hab
  · intro h hh
    exact parseAllHistoryTimes_mem_parse issue.changelog.histories parsed hparse h
      (hperm.mem_iff.mp hh)
  · exact parseAllHistoryTimes_map_eq issue.changelog.histories parsed hparse ▸
      hperm.map (fun h => (h.created, h.items))

/-- Witness for the amended C2 at a concrete changelog: the parsed,
unswapped output satisfies the relation, and the theorem instantiates on
it. -/
theorem parseHistoryTimes_sorted_witness :
    List.Sorted (fun a b : Int => a ≤ b)
      (tieIssueParsed.changelog.histories.map History.createdTime) ∧
    (∀ h ∈ tieIssueParsed.changelog.histories,
      parseJiraTime h.created = some h.createdTime) ∧
    (tieIssueParsed.changelog.histories.map (fun h => (h.created, h.items))).Perm
      (tieIssue.changelog.histories.map (fun h => (h.created, h.items))) :=
  parseHistoryTimes_sorted tieIssue tieIssueParsed
    ⟨rfl, rfl, [tieHistoryA1, tieHistoryB1], rfl, List.Perm.refl _, by decide⟩

/-! ## Claim theorem about the custom-field accessors -/

/-- Claim C10: GetSize and GetPercentageComplete return the configured
custom field's value exactly when it is present with a numeric (float64)
value, and return zero when the field is absent or holds a value of any
other dynamic type.  Both accessors are total functions of the issue and
configuration, so neither can fail. -/
theorem customField_accessors (issue : Issue) (config : Config) :
    (∀ q : ℚ, lookupCustomField issue.fields.customFields config.jira.sizeField =
        some (JSONValue.num q) → issue.GetSize config = q) ∧
    (lookupCustomField issue.fields.customFields config.jira.sizeField = none →
        issue.GetSize config = 0) ∧
    (∀ v : JSONValue,
        lookupCustomField issue.fields.customFields config.jira.sizeField = some v →
        (∀ q : ℚ, v ≠ JSONValue.num q) → issue.GetSize config = 0) ∧
    (∀ q : ℚ, lookupCustomField issue.fields.customFields config.jira.percentCompleteField =
        some (JSONValue.num q) → issue.GetPercentageComplete config = q) ∧
    (lookupCustomField issue.fields.customFields config.jira.percentCompleteField = none →
        issue.GetPercentageComplete config = 0) ∧
    (∀ v : JSONValue,
        lookupCustomField issue.fields.customFields config.jira.percentCompleteField = some v →
        (∀ q : ℚ, v ≠ JSONValue.num q) → issue.GetPercentageComplete config = 0) := by
  refine ⟨?_, ?_, ?_, ?_, ?_, ?_⟩
  · intro q h
    simp [Issue.GetSize, h]
  · intro h
    simp [Issue.GetSize, h]
  · intro v h hne
    cases v with
    | num q => exact absurd rfl (hne q)
    | str s => simp [Issue.GetSize, h]
    | boolean b => simp [Issue.GetSize, h]
    | null => simp [Issue.GetSize, h]
    | composite => simp [Issue.GetSize, h]
  · intro q h
    simp [Issue.GetPercentageComplete, h]
  · intro h
    simp [Issue.GetPercentageComplete, h]
  · intro v h hne
    cases v with
    | num q => exact absurd rfl (hne q)
    | str s => simp [Issue.GetPercentageComplete, h]
    | boolean b => simp [Issue.GetPercentageComplete, h]
    | null => simp [Issue.GetPercentageComplete, h]
    | composite => simp [Issue.GetPercentageComplete, h]

/-- Witness for C10: the fixture with a numeric size field of five yields
five; the fixture whose percent field holds a string and whose size field
is absent yields zero from both accessors. -/
theorem customField_accessors_witness :
    witIssueDone.GetSize witConfig = 5 ∧
    witIssueDone.GetPercentageComplete witConfig = 0 ∧
    witIssueOdd.GetSize witConfig = 0 ∧
    witIssueOdd.GetPercentageComplete witConfig = 0 :=
  ⟨(customField_accessors witIssueDone witConfig).1 5 rfl,
    (customField_accessors witIssueDone witConfig).2.2.2.2.1 rfl,
    (customField_accessors witIssueOdd witConfig).2.1 rfl,
    (customField_accessors witIssueOdd witConfig).2.2.2.2.2 (JSONValue.str "0.7") rfl
      (fun _q h => JSONValue.noConfusion h)⟩

/-! ## Claim theorems about the Projections sheet -/

/-- Claim C7: in the projection output at zero-based week index i, the
velocity cell is written exactly when i is at least one, the
moving-average cell exactly when i is at least two, and the standard
deviation, both band velocities and the three projected dates exactly
when i is at least three; earlier rows leave those cells absent. -/
theorem projectionRow_presence (movingAvgWeeks weekIndex : Nat) (weekDateStr : String) :
    ((projectionRow movingAvgWeeks weekIndex weekDateStr).velocity.isSome = true ↔
      1 ≤ weekIndex) ∧
    ((projectionRow movingAvgWeeks weekIndex weekDateStr).avgVelocity.isSome = true ↔
      2 ≤ weekIndex) ∧
    ((projectionRow movingAvgWeeks weekIndex weekDateStr).stdDevVelocity.isSome = true ↔
      3 ≤ weekIndex) ∧
    ((projectionRow movingAvgWeeks weekIndex weekDateStr).fastProjection.isSome = true ↔
      3 ≤ weekIndex) ∧
    ((projectionRow movingAvgWeeks weekIndex weekDateStr).meanProjection.isSome = true ↔
      3 ≤ weekIndex) ∧
    ((projectionRow movingAvgWeeks weekIndex weekDateStr).slowProjection.isSome = true ↔
      3 ≤ weekIndex) ∧
    ((projectionRow movingAvgWeeks weekIndex weekDateStr).fastVelocity.isSome = true ↔
      3 ≤ weekIndex) ∧
    ((projectionRow movingAvgWeeks weekIndex weekDateStr).slowVelocity.isSome = true ↔
      3 ≤ weekIndex) := by
  refine ⟨?_, ?_, ?_, ?_, ?_, ?_, ?_, ?_⟩ <;>
    · simp only [projectionRow]
      split_ifs with hcase <;> simp <;> omega

/-- Counterexample to claim C3 as stated: at week index three with every
band velocity cell holding zero, the three projected-date cells are not
absent, they hold formulas, and each formula evaluates to the
division-by-zero error. -/
theorem projection_zeroVelocity_case :
    (projectionRow 3 3 "2024-01-22").fastProjection.isSome = true ∧
    (projectionRow 3 3 "2024-01-22").meanProjection.isSome = true ∧
    (projectionRow 3 3 "2024-01-22").slowProjection.isSome = true ∧
    ((projectionRow 3 3 "2024-01-22").fastProjection.map (evalCellExpr zeroVelocityEnv) =
      some (Except.error EvalErr.divByZero)) ∧
    ((projectionRow 3 3 "2024-01-22").meanProjection.map (evalCellExpr zeroVelocityEnv) =
      some (Except.error EvalErr.divByZero)) ∧
    ((projectionRow 3 3 "2024-01-22").slowProjection.map (evalCellExpr zeroVelocityEnv) =
      some (Except.error EvalErr.divByZero)) := by
  refine ⟨rfl, rfl, rfl, ?_, ?_, ?_⟩ <;> with_unfolding_all rfl

/-- Claim C3 amended: for every projection row with week index at least
three, the three projected-date cells always receive their WORKDAY
formulas, regardless of the velocity data; each formula divides the
remaining value by its band's velocity cell with no guard, so a zero
velocity in any band makes that band's formula evaluate to the
division-by-zero error rather than to an absent value. -/
theorem projection_formulas_unconditional (movingAvgWeeks weekIndex : Nat)
    (weekDateStr : String) (env : String → Nat → Option ℚ)
    (hwk : 2 < weekIndex) (a c : ℚ)
    (hA : env "A" (weekIndex + 2) = some a)
    (hC : env "C" (weekIndex + 2) = some c)
    (hJ : env "J" (weekIndex + 2) = some 0)
    (hE : env "E" (weekIndex + 2) = some 0)
    (hK : env "K" (weekIndex + 2) = some 0) :
    (projectionRow movingAvgWeeks weekIndex weekDateStr).fastProjection =
        some (fastProjectionFormula (weekIndex + 2)) ∧
    (projectionRow movingAvgWeeks weekIndex weekDateStr).meanProjection =
        some (meanProjectionFormula (weekIndex + 2)) ∧
    (projectionRow movingAvgWeeks weekIndex weekDateStr).slowProjection =
        some (slowProjectionFormula (weekIndex + 2)) ∧
    evalCellExpr env (fastProjectionFormula (weekIndex + 2)) =
        Except.error EvalErr.divByZero ∧
    evalCellExpr env (meanProjectionFormula (weekIndex + 2)) =
        Except.error EvalErr.divByZero ∧
    evalCellExpr env (slowProjectionFormula (weekIndex + 2)) =
        Except.error EvalErr.divByZero := by
  refine ⟨?_, ?_, ?_, ?_, ?_, ?_⟩
  · simp [projectionRow, hwk]
  · simp [projectionRow, hwk]
  · simp [projectionRow, hwk]
  · simp [fastProjectionFormula, evalCellExpr, hA, hC, hJ]
  · simp [meanProjectionFormula, evalCellExpr, hA, hC, hE]
  · simp [slowProjectionFormula, evalCellExpr, hA, hC, hK]

/-- Witness for the amended C3 at week index four and the concrete
zero-velocity sheet state. -/
theorem projection_formulas_unconditional_witness :
    (projectionRow 3 4 "2024-01-29").fastProjection = some (fastProjectionFormula 6) ∧
    (projectionRow 3 4 "2024-01-29").meanProjection = some (meanProjectionFormula 6) ∧
    (projectionRow 3 4 "2024-01-29").slowProjection = some (slowProjectionFormula 6) ∧
    evalCellExpr zeroVelocityEnv (fastProjectionFormula 6) = Except.error EvalErr.divByZero ∧
    evalCellExpr zeroVelocityEnv (meanProjectionFormula 6) = Except.error EvalErr.divByZero ∧
    evalCellExpr zeroVelocityEnv (slowProjectionFormula 6) = Except.error EvalErr.divByZero :=
  projection_formulas_unconditional 3 4 "2024-01-29" zeroVelocityEnv
    (by norm_num) 45317 60
    (by with_unfolding_all rfl) (by with_unfolding_all rfl)
    (by with_unfolding_all rfl) (by with_unfolding_all rfl)
    (by with_unfolding_all rfl)

end GoBurndown
